import Mathlib

/-!
Verification of the taxonomy extractor and selector of `rollthetech`
(`src/main.rs`).  The program downloads a markdown document, walks its
mdast syntax tree to build a map from category names to styled entry
titles, and picks a uniformly random category and entry.

The extraction loop of `main` (src/main.rs lines 62-137) is embedded
below as pure functions over an explicit syntax-tree type; Rust panics
(`unwrap()` on `None`, out-of-bounds indexing) are modelled as a
distinct failure value, separate from the propagated
`RollError::Parse` error return.
-/

/-- Markdown syntax-tree nodes, mirroring the `markdown::mdast::Node`
variants the program consumes (src/main.rs).  `other` stands for every
remaining mdast variant; its optional child list mirrors
`Node::children()`, which returns `Some` for container variants and
`None` for literal variants. -/
inductive Node where
  | root (children : List Node)
  | heading (depth : Nat) (children : List Node)
  | list (children : List Node)
  | listItem (children : List Node)
  | paragraph (children : List Node)
  | link (children : List Node)
  | strong (children : List Node)
  | emphasis (children : List Node)
  | text (value : String)
  | inlineCode (value : String)
  | other (children : Option (List Node))

/-- Children accessor, mirroring `markdown::mdast::Node::children()`:
`some` for container nodes, `none` for `Text` and `InlineCode`. -/
def childrenOf : Node → Option (List Node)
  | Node.root cs => some cs
  | Node.heading _ cs => some cs
  | Node.list cs => some cs
  | Node.listItem cs => some cs
  | Node.paragraph cs => some cs
  | Node.link cs => some cs
  | Node.strong cs => some cs
  | Node.emphasis cs => some cs
  | Node.text _ => none
  | Node.inlineCode _ => none
  | Node.other cs => cs

/-- Failure modes of the extraction in `main`: `parse` models the
propagated `Err(RollError::Parse)` (src/main.rs lines 19-20, raised at
lines 75-78, 84-87, 104-108, 113-115, 120-122), while `panic` models a
Rust runtime panic from `unwrap()` or an out-of-bounds index (lines
81, 95-103, 114, 121, 133-135), which aborts the process instead of
returning an error. -/
inductive Fail where
  | parse
  | panic
deriving DecidableEq

/-- The taxonomy `categories: HashMap<String, Vec<String>>` of `main`
(src/main.rs line 62), modelled as an association list with unique
keys; `mapInsert` keeps the `HashMap` invariant that each key occurs
at most once. -/
abbrev Taxonomy := List (String × List String)

/-- Lookup, mirroring `HashMap::get`. -/
def mapGet : Taxonomy → String → Option (List String)
  | [], _ => none
  | (k', v) :: rest, k => if k' = k then some v else mapGet rest k

/-- Insertion, mirroring `HashMap::insert`: replaces the value of an
existing key, otherwise adds a new entry. -/
def mapInsert : Taxonomy → String → List String → Taxonomy
  | [], k, v => [(k, v)]
  | (k', v') :: rest, k, v =>
    if k' = k then (k, v) :: rest else (k', v') :: mapInsert rest k v

/-- Rust's `str::starts_with`, over the character sequences of the two
strings. -/
def starts_with (s p : String) : Bool := List.isPrefixOf p.data s.data

/-- Processing of one child of a link node (src/main.rs lines
110-131): a `Strong` child must have a text first child
(`&s.children[0]` panics when there is no child, and a non-text child
is a parse error) and appends a bold blue fragment plus a literal
": "; an `Emphasis` child likewise appends an italic white fragment;
every other child kind is ignored. -/
def styleChild (acc : String) (n : Node) : Except Fail String :=
  match n with
  | Node.strong cs =>
    match cs with
    | [] => Except.error Fail.panic
    | c :: _ =>
      match c with
      | Node.text v => Except.ok (acc ++ "{blue}{bold}" ++ v ++ "{-}: ")
      | _ => Except.error Fail.parse
  | Node.emphasis cs =>
    match cs with
    | [] => Except.error Fail.panic
    | c :: _ =>
      match c with
      | Node.text v => Except.ok (acc ++ "{white}{italic}" ++ v ++ "{-}")
      | _ => Except.error Fail.parse
  | _ => Except.ok acc

/-- Fold of `styleChild` over a link's children, mirroring the
`for link_child in &lnk.children` loop that builds `link_title`
(src/main.rs lines 109-131). -/
def buildTitle (acc : String) : List Node → Except Fail String
  | [] => Except.ok acc
  | c :: rest =>
    match styleChild acc c with
    | Except.ok acc2 => buildTitle acc2 rest
    | Except.error e => Except.error e

/-- Navigation from a list item to its expected link node
(src/main.rs lines 95-103): `item.children().unwrap().first().unwrap()
.children().unwrap().first().unwrap()`.  Each `unwrap()` on a missing
child list or empty child list is a panic. -/
def navLink (item : Node) : Except Fail Node :=
  match childrenOf item with
  | none => Except.error Fail.panic
  | some cs =>
    match cs with
    | [] => Except.error Fail.panic
    | c :: _ =>
      match childrenOf c with
      | none => Except.error Fail.panic
      | some cs2 =>
        match cs2 with
        | [] => Except.error Fail.panic
        | c2 :: _ => Except.ok c2

/-- Processing of one list item under the active category `cc`
(src/main.rs lines 94-135): navigate to the link (panics modelled by
`navLink`), fail with a parse error when the reached node is not a
link, build the styled title, and push it onto the category's entry
list (`categories.get_mut(..).unwrap().push(..)`; the `unwrap` panics
when the key is absent). -/
def processItem (m : Taxonomy) (cc : String) (item : Node) : Except Fail Taxonomy :=
  match navLink item with
  | Except.error e => Except.error e
  | Except.ok n =>
    match n with
    | Node.link lcs =>
      match buildTitle "" lcs with
      | Except.error e => Except.error e
      | Except.ok title =>
        match mapGet m cc with
        | none => Except.error Fail.panic
        | some vs => Except.ok (mapInsert m cc (vs ++ [title]))
    | _ => Except.error Fail.parse

/-- Sequential processing of a list node's items
(src/main.rs `for item in &l.children`, lines 94-136). -/
def processItems (m : Taxonomy) (cc : String) : List Node → Except Fail Taxonomy
  | [] => Except.ok m
  | i :: rest =>
    match processItem m cc i with
    | Except.error e => Except.error e
    | Except.ok m2 => processItems m2 cc rest

/-- The traversal loop over the root's children (src/main.rs lines
64-137), carrying the `current_category` option and the `categories`
map.  A depth-2 heading whose first child is a text node starting with
"Contribute" terminates the loop (`break`); a depth-4 heading must
start with a text child (else parse error), and when that text starts
with "Build" its second child `h.children[1]` (a panic when absent)
must be inline code (else parse error) whose value becomes the current
category, registered with a fresh empty entry list; a list node is
processed only under a non-empty current category; every other node is
ignored. -/
def extractLoop : List Node → Option String → Taxonomy → Except Fail Taxonomy
  | [], _, m => Except.ok m
  | child :: rest, cat, m =>
    match child with
    | Node.heading d cs =>
      if d = 2 then
        match cs with
        | Node.text t :: _ =>
          if starts_with t "Contribute" then Except.ok m
          else extractLoop rest cat m
        | _ => extractLoop rest cat m
      else if d = 4 then
        match cs with
        | Node.text t :: cs2 =>
          if starts_with t "Build" then
            match cs2 with
            | [] => Except.error Fail.panic
            | c2 :: _ =>
              match c2 with
              | Node.inlineCode v => extractLoop rest (some v) (mapInsert m v [])
              | _ => Except.error Fail.parse
          else extractLoop rest cat m
        | _ => Except.error Fail.parse
      else extractLoop rest cat m
    | Node.list items =>
      match cat with
      | none => extractLoop rest cat m
      | some cc =>
        if cc = "" then extractLoop rest cat m
        else
          match processItems m cc items with
          | Except.error e => Except.error e
          | Except.ok m2 => extractLoop rest cat m2
    | _ => extractLoop rest cat m

/-- Whole extraction stage of `main` (src/main.rs lines 62-137): when
the parsed tree is a `Root`, run the traversal loop with no current
category and an empty map; otherwise the `if let Node::Root` body is
skipped and the map stays empty. -/
def extract (ast : Node) : Except Fail Taxonomy :=
  match ast with
  | Node.root cs => extractLoop cs none []
  | _ => Except.ok []

/-- Modelled from the spec: `nanorand`'s `WyRand::generate_range`, the
external uniform random-range primitive used by `roll_die`
(src/main.rs line 45), is not part of this repository; the spec states
its contract as returning an integer in `[0, n)` for `n ≥ 1`, with
`n = 0` outside its precondition (undefined behavior).  It is modelled
as `seed % n` over an abstract entropy value `seed`, which satisfies
that contract (`seed % 0 = seed` stands in for the undefined case). -/
def generate_range (seed n : Nat) : Nat := seed % n

/-- The selector `roll_die` (src/main.rs lines 34-46): the message is
used only for the cosmetic spinner, the `hide_spinner` flag only
suppresses that spinner and its fake delay, and the returned value is
exactly the random draw `rng.generate_range(0..n)`. -/
def roll_die (seed n : Nat) (msg : String) (hide_spinner : Bool) : Nat :=
  generate_range seed n

/-- Key sequence of the taxonomy, mirroring `categories.keys()`
(src/main.rs line 141); for the empty map the unspecified `HashMap`
iteration order is irrelevant. -/
def keysList (m : Taxonomy) : List String := m.map Prod.fst

/-- The category-selection stage of `main` (src/main.rs lines
140-146): `roll_die` is invoked on `categories.keys().len()` with no
guard for an empty taxonomy, and `keys().nth(category_idx).unwrap()`
panics when the index is out of range. -/
def pickCategory (m : Taxonomy) (seed : Nat) (fast : Bool) : Except Fail String :=
  let idx := roll_die seed (keysList m).length "Deciding a category... " fast
  match (keysList m).get? idx with
  | none => Except.error Fail.panic
  | some k => Except.ok k

/-- Shape check for the first-child requirement of a depth-4 heading:
true exactly when the child list starts with a text node. -/
def headIsText : List Node → Bool
  | Node.text _ :: _ => true
  | _ => false

/-- Styled link children: the `Strong` and `Emphasis` variants, the
only link children `main` does not ignore (src/main.rs lines 110-131). -/
def isStyled : Node → Bool
  | Node.strong _ => true
  | Node.emphasis _ => true
  | _ => false

/-- Well-formed link child: a strong or emphasis node must carry a
text first child; every other node kind is ignored and hence always
well-formed. -/
def goodLinkChild : Node → Bool
  | Node.strong cs =>
    match cs with
    | Node.text _ :: _ => true
    | _ => false
  | Node.emphasis cs =>
    match cs with
    | Node.text _ :: _ => true
    | _ => false
  | _ => true

/-- Well-formed list item: the navigation of `processItem` reaches a
link node all of whose children are well-formed. -/
def goodItem (i : Node) : Bool :=
  match navLink i with
  | Except.ok (Node.link lcs) => lcs.all goodLinkChild
  | _ => false

/-- Value of a successful title computation, empty string otherwise. -/
def okTitle : Except Fail String → String
  | Except.ok t => t
  | Except.error _ => ""

/-- Title produced for a well-formed list item. -/
def itemTitle (i : Node) : String :=
  match navLink i with
  | Except.ok (Node.link lcs) => okTitle (buildTitle "" lcs)
  | _ => ""

/-- Category section of a synthetic document conforming to the
expected shape: a depth-4 heading built from a heading text and an
inline-code category name, followed by the section's list nodes. -/
def secNodes (s : String × String × List (List Node)) : List Node :=
  Node.heading 4 [Node.text s.1, Node.inlineCode s.2.1] :: (s.2.2).map Node.list

/-- Concatenation of the section nodes of a list of sections. -/
def docNodes : List (String × String × List (List Node)) → List Node
  | [] => []
  | s :: rest => secNodes s ++ docNodes rest

/-- The boundary heading: a depth-2 heading whose first child is the
text node "Contribute". -/
def contribNode : Node := Node.heading 2 [Node.text "Contribute"]

/-- Synthetic document of the expected shape: the sections, then the
boundary heading, then arbitrary trailing content. -/
def mkDoc (secs : List (String × String × List (List Node))) (post : List Node) : Node :=
  Node.root (docNodes secs ++ contribNode :: post)

/-- Entry titles a well-formed section contributes: one per list item
across all of its list nodes. -/
def secEntries (s : String × String × List (List Node)) : List String :=
  (s.2.2.flatten).map itemTitle

/-- Expected taxonomy of a synthetic document: one key per section, in
document order. -/
def taxOf (secs : List (String × String × List (List Node))) : Taxonomy :=
  secs.map (fun s => (s.2.1, secEntries s))

/-- Canonical well-formed list item used in concrete instances: a
list item holding a paragraph holding a link with a strong "A" and an
emphasis "b". -/
def goodItemNode : Node :=
  Node.listItem [Node.paragraph [Node.link
    [Node.strong [Node.text "A"], Node.emphasis [Node.text "b"]]]]

theorem mapGet_mapInsert_self (m : Taxonomy) (k : String) (v : List String) :
    mapGet (mapInsert m k v) k = some v := by
  induction m with
  | nil => simp [mapGet, mapInsert]
  | cons p rest ih =>
    obtain ⟨k', v'⟩ := p
    by_cases h : k' = k <;> simp [mapGet, mapInsert, h, ih]

theorem mapInsert_mapInsert (m : Taxonomy) (k : String) (v w : List String) :
    mapInsert (mapInsert m k v) k w = mapInsert m k w := by
  induction m with
  | nil => simp [mapInsert]
  | cons p rest ih =>
    obtain ⟨k', v'⟩ := p
    by_cases h : k' = k <;> simp [mapInsert, h, ih]

theorem mapInsert_self_of_get (m : Taxonomy) (k : String) (v : List String)
    (h : mapGet m k = some v) : mapInsert m k v = m := by
  induction m with
  | nil => simp [mapGet] at h
  | cons p rest ih =>
    obtain ⟨k', v'⟩ := p
    by_cases hk : k' = k
    · subst hk
      simp [mapGet] at h
      simp [mapInsert, h]
    · simp [mapGet, hk] at h
      simp [mapInsert, hk, ih h]

theorem mapInsert_of_get_none (m : Taxonomy) (k : String) (v : List String)
    (h : mapGet m k = none) : mapInsert m k v = m ++ [(k, v)] := by
  induction m with
  | nil => simp [mapInsert]
  | cons p rest ih =>
    obtain ⟨k', v'⟩ := p
    by_cases hk : k' = k
    · simp [mapGet, hk] at h
    · simp [mapGet, hk] at h
      simp [mapInsert, hk, ih h]

theorem mapGet_append_of_none (m l : Taxonomy) (k : String) (h : mapGet m k = none) :
    mapGet (m ++ l) k = mapGet l k := by
  induction m with
  | nil => simp
  | cons p rest ih =>
    obtain ⟨k', v'⟩ := p
    by_cases hk : k' = k
    · simp [mapGet, hk] at h
    · simp [mapGet, hk] at h ⊢
      exact ih h

theorem mapInsert_append_of_none (m l : Taxonomy) (k : String) (v : List String)
    (h : mapGet m k = none) : mapInsert (m ++ l) k v = m ++ mapInsert l k v := by
  induction m with
  | nil => simp
  | cons p rest ih =>
    obtain ⟨k', v'⟩ := p
    by_cases hk : k' = k
    · simp [mapGet, hk] at h
    · simp [mapGet, hk] at h
      simp [mapInsert, hk, ih h]

theorem buildTitle_ok : ∀ (lcs : List Node), lcs.all goodLinkChild = true →
    ∀ acc, ∃ t, buildTitle acc lcs = Except.ok t := by
  intro lcs
  induction lcs with
  | nil => intro _ acc; exact ⟨acc, rfl⟩
  | cons n rest ih =>
    intro h acc
    rw [List.all_cons, Bool.and_eq_true] at h
    obtain ⟨hn, hrest⟩ := h
    have hstep : ∃ acc2, styleChild acc n = Except.ok acc2 := by
      cases n with
      | strong cs =>
        rcases cs with _ | ⟨c, cs'⟩
        · simp [goodLinkChild] at hn
        · cases c <;> simp [goodLinkChild] at hn <;> exact ⟨_, rfl⟩
      | emphasis cs =>
        rcases cs with _ | ⟨c, cs'⟩
        · simp [goodLinkChild] at hn
        · cases c <;> simp [goodLinkChild] at hn <;> exact ⟨_, rfl⟩
      | root cs => exact ⟨acc, rfl⟩
      | heading d cs => exact ⟨acc, rfl⟩
      | list cs => exact ⟨acc, rfl⟩
      | listItem cs => exact ⟨acc, rfl⟩
      | paragraph cs => exact ⟨acc, rfl⟩
      | link cs => exact ⟨acc, rfl⟩
      | text v => exact ⟨acc, rfl⟩
      | inlineCode v => exact ⟨acc, rfl⟩
      | other cs => exact ⟨acc, rfl⟩
    obtain ⟨acc2, hacc2⟩ := hstep
    obtain ⟨t, ht⟩ := ih hrest acc2
    exact ⟨t, by simp [buildTitle, hacc2, ht]⟩

theorem processItem_good (i : Node) (m : Taxonomy) (cc : String) (vs : List String)
    (h : goodItem i = true) (hm : mapGet m cc = some vs) :
    processItem m cc i = Except.ok (mapInsert m cc (vs ++ [itemTitle i])) := by
  unfold goodItem at h
  split at h
  case h_1 lcs heq =>
    obtain ⟨t, ht⟩ := buildTitle_ok lcs h ""
    have hit : itemTitle i = t := by
      unfold itemTitle
      rw [heq]
      simp [ht, okTitle]
    rw [processItem, heq]
    simp [ht, hm, hit]
  case h_2 => simp at h

theorem processItems_good : ∀ (items : List Node) (m : Taxonomy) (cc : String) (vs : List String),
    (∀ i ∈ items, goodItem i = true) → mapGet m cc = some vs →
    processItems m cc items = Except.ok (mapInsert m cc (vs ++ items.map itemTitle)) := by
  intro items
  induction items with
  | nil =>
    intro m cc vs _ hm
    simp [processItems, mapInsert_self_of_get m cc vs hm]
  | cons i rest ih =>
    intro m cc vs hg hm
    have h1 := processItem_good i m cc vs (hg i (by simp)) hm
    have h2 := ih (mapInsert m cc (vs ++ [itemTitle i])) cc (vs ++ [itemTitle i])
      (fun j hj => hg j (by simp [hj])) (mapGet_mapInsert_self m cc (vs ++ [itemTitle i]))
    rw [processItems, h1]
    simp [h2, mapInsert_mapInsert]

theorem extractLoop_lists :
    ∀ (lss : List (List Node)) (rest : List Node) (cc : String) (m : Taxonomy) (vs : List String),
    cc ≠ "" → (∀ l ∈ lss, ∀ i ∈ l, goodItem i = true) → mapGet m cc = some vs →
    extractLoop (lss.map Node.list ++ rest) (some cc) m =
      extractLoop rest (some cc) (mapInsert m cc (vs ++ (lss.flatten).map itemTitle)) := by
  intro lss
  induction lss with
  | nil =>
    intro rest cc m vs hcc _ hm
    simp [mapInsert_self_of_get m cc vs hm]
  | cons l lss ih =>
    intro rest cc m vs hcc hg hm
    have hpi := processItems_good l m cc vs (fun i hi => hg l (by simp) i hi) hm
    have hrec := ih rest cc (mapInsert m cc (vs ++ l.map itemTitle)) (vs ++ l.map itemTitle)
      hcc (fun l' hl' i hi => hg l' (by simp [hl']) i hi)
      (mapGet_mapInsert_self m cc (vs ++ l.map itemTitle))
    simp only [List.map_cons, List.cons_append]
    rw [extractLoop]
    simp only [hcc, if_neg, hpi]
    rw [hrec, mapInsert_mapInsert]
    simp

theorem contrib_self : starts_with "Contribute" "Contribute" = true := by decide

theorem extractLoop_sections :
    ∀ (secs : List (String × String × List (List Node))) (post : List Node)
      (cat0 : Option String) (m : Taxonomy),
    (∀ s ∈ secs, starts_with s.1 "Build" = true) →
    (∀ s ∈ secs, s.2.1 ≠ "") →
    (∀ s ∈ secs, ∀ l ∈ s.2.2, ∀ i ∈ l, goodItem i = true) →
    (∀ s ∈ secs, mapGet m s.2.1 = none) →
    (secs.map (fun s => s.2.1)).Nodup →
    extractLoop (docNodes secs ++ contribNode :: post) cat0 m =
      Except.ok (m ++ taxOf secs) := by
  intro secs
  induction secs with
  | nil =>
    intro post cat0 m _ _ _ _ _
    simp [docNodes, contribNode, taxOf, extractLoop, contrib_self]
  | cons s secs ih =>
    intro post cat0 m hb hne hg hf hnd
    have hb0 : starts_with s.1 "Build" = true := hb s (by simp)
    have hne0 : s.2.1 ≠ "" := hne s (by simp)
    have hf0 : mapGet m s.2.1 = none := hf s (by simp)
    have hnotin : s.2.1 ∉ secs.map (fun x => x.2.1) := (List.nodup_cons.mp hnd).1
    simp only [docNodes, secNodes, List.cons_append, List.append_assoc]
    rw [extractLoop]
    simp only [hb0, if_pos]
    rw [mapInsert_of_get_none m s.2.1 [] hf0]
    have hget : mapGet (m ++ [(s.2.1, [])]) s.2.1 = some [] := by
      rw [mapGet_append_of_none m _ _ hf0]
      simp [mapGet]
    rw [extractLoop_lists (s.2.2) (docNodes secs ++ contribNode :: post) s.2.1
      (m ++ [(s.2.1, [])]) [] hne0 (hg s (by simp)) hget]
    rw [mapInsert_append_of_none m _ _ _ hf0]
    simp only [mapInsert, if_pos, List.nil_append]
    have hf' : ∀ s' ∈ secs, mapGet (m ++ [(s.2.1, secEntries s)]) s'.2.1 = none := by
      intro s' hs'
      rw [mapGet_append_of_none m _ _ (hf s' (by simp [hs']))]
      have : s.2.1 ≠ s'.2.1 := by
        intro he
        have hmem : s'.2.1 ∈ List.map (fun x => x.2.1) secs :=
          List.mem_map_of_mem (fun x => x.2.1) hs'
        exact hnotin (by rw [he]; exact hmem)
      simp [mapGet, this]
    show extractLoop (docNodes secs ++ contribNode :: post) (some s.2.1)
      (m ++ [(s.2.1, secEntries s)]) = Except.ok (m ++ taxOf (s :: secs))
    rw [ih post (some s.2.1) (m ++ [(s.2.1, secEntries s)])
      (fun s' hs' => hb s' (by simp [hs'])) (fun s' hs' => hne s' (by simp [hs']))
      (fun s' hs' => hg s' (by simp [hs'])) hf' (List.nodup_cons.mp hnd).2]
    simp [taxOf, secEntries]

theorem mapGet_taxOf :
    ∀ (secs : List (String × String × List (List Node))),
    (secs.map (fun s => s.2.1)).Nodup →
    ∀ s ∈ secs, mapGet (taxOf secs) s.2.1 = some (secEntries s) := by
  intro secs
  induction secs with
  | nil => intro _ s hs; simp at hs
  | cons a secs ih =>
    intro hnd s hs
    rcases List.mem_cons.mp hs with rfl | hs'
    · simp [taxOf, mapGet]
    · have hne : a.2.1 ≠ s.2.1 := by
        intro he
        have hmem : s.2.1 ∈ List.map (fun x => x.2.1) secs :=
          List.mem_map_of_mem (fun x => x.2.1) hs'
        exact (List.nodup_cons.mp hnd).1
          (by show a.2.1 ∈ List.map (fun x => x.2.1) secs; rw [he]; exact hmem)
      simp only [taxOf, List.map_cons, mapGet, if_neg hne]
      exact ih (List.nodup_cons.mp hnd).2 s hs'

/-- C1: for every syntax tree conforming to the expected document
shape — sections made of a depth-4 heading whose text starts with
"Build" and whose second child is an inline-code node carrying a
non-empty, pairwise-distinct category name, each followed by list
nodes of well-formed items, then the depth-2 "Contribute" boundary
heading, then arbitrary trailing content — the extractor produces a
mapping whose key set equals the set of inline-code values of the
qualifying headings before the boundary, and each key's entry list has
length equal to the number of list items that follow its heading
before the next depth-4 heading or the boundary. -/
theorem extract_valid_doc_keys_and_counts
    (secs : List (String × String × List (List Node))) (post : List Node)
    (hb : ∀ s ∈ secs, starts_with s.1 "Build" = true)
    (hne : ∀ s ∈ secs, s.2.1 ≠ "")
    (hg : ∀ s ∈ secs, ∀ l ∈ s.2.2, ∀ i ∈ l, goodItem i = true)
    (hnd : (secs.map (fun s => s.2.1)).Nodup) :
    extract (mkDoc secs post) = Except.ok (taxOf secs) ∧
    keysList (taxOf secs) = secs.map (fun s => s.2.1) ∧
    ∀ s ∈ secs, mapGet (taxOf secs) s.2.1 = some (secEntries s) ∧
      (secEntries s).length = (s.2.2.flatten).length := by
  refine ⟨?_, ?_, ?_⟩
  · show extractLoop (docNodes secs ++ contribNode :: post) none [] = Except.ok (taxOf secs)
    rw [extractLoop_sections secs post none [] hb hne hg (fun s _ => rfl) hnd]
    simp
  · simp [keysList, taxOf]
  · intro s hs
    exact ⟨mapGet_taxOf secs hnd s hs, by simp only [secEntries, List.length_map]⟩

/-- Concrete valid synthetic document used to instantiate the shape
theorem: two sections, the first with two list nodes holding one and
two items, the second with one empty list node. -/
def witSecs : List (String × String × List (List Node)) :=
  [("Build your own ", "X", [[goodItemNode], [goodItemNode, goodItemNode]]),
   ("Build a ", "Y", [[]])]

theorem extract_valid_doc_keys_and_counts_witness :
    (∀ s ∈ witSecs, starts_with s.1 "Build" = true) ∧
    (∀ s ∈ witSecs, s.2.1 ≠ "") ∧
    (∀ s ∈ witSecs, ∀ l ∈ s.2.2, ∀ i ∈ l, goodItem i = true) ∧
    (witSecs.map (fun s => s.2.1)).Nodup ∧
    (extract (mkDoc witSecs []) = Except.ok (taxOf witSecs) ∧
     keysList (taxOf witSecs) = witSecs.map (fun s => s.2.1) ∧
     ∀ s ∈ witSecs, mapGet (taxOf witSecs) s.2.1 = some (secEntries s) ∧
       (secEntries s).length = (s.2.2.flatten).length) :=
  ⟨by decide, by decide, by decide, by decide,
   extract_valid_doc_keys_and_counts witSecs []
     (by decide) (by decide) (by decide) (by decide)⟩

theorem extractLoop_tail_congr (n : Node) (l1 l2 : List Node)
    (h : ∀ cat m, extractLoop l1 cat m = extractLoop l2 cat m) :
    ∀ (cat : Option String) (m : Taxonomy),
    extractLoop (n :: l1) cat m = extractLoop (n :: l2) cat m := by
  intro cat m
  cases n with
  | heading d cs =>
    by_cases h2 : d = 2
    · subst h2
      rcases cs with _ | ⟨c, cs'⟩
      · simp [extractLoop, h]
      · cases c <;> simp [extractLoop, h]
    · by_cases h4 : d = 4
      · subst h4
        rcases cs with _ | ⟨c, cs'⟩
        · simp [extractLoop, h2]
        · cases c <;> simp [extractLoop, h2, h]
      · simp [extractLoop, h2, h4, h]
  | list items =>
    simp only [extractLoop]
    cases cat with
    | none => exact h none m
    | some cc =>
      by_cases hcc : cc = ""
      · simp [hcc, h]
      · simp only [hcc, if_neg]
        cases hpi : processItems m cc items with
        | error e => simp [hpi]
        | ok m2 => simp [hpi, h]
  | root cs => simp [extractLoop, h]
  | listItem cs => simp [extractLoop, h]
  | paragraph cs => simp [extractLoop, h]
  | link cs => simp [extractLoop, h]
  | strong cs => simp [extractLoop, h]
  | emphasis cs => simp [extractLoop, h]
  | text v => simp [extractLoop, h]
  | inlineCode v => simp [extractLoop, h]
  | other cs => simp [extractLoop, h]

/-- C2: traversal stops at the first depth-2 heading whose first child
is a text node starting with "Contribute" — the extraction result on
any root child sequence is unchanged when everything after that
heading is deleted, so no category or entry derived from nodes after
the boundary can appear in the mapping. -/
theorem extract_stops_at_contribute (pre post cs : List Node) (t : String)
    (cat : Option String) (m : Taxonomy)
    (h : starts_with t "Contribute" = true) :
    extractLoop (pre ++ Node.heading 2 (Node.text t :: cs) :: post) cat m =
      extractLoop (pre ++ [Node.heading 2 (Node.text t :: cs)]) cat m := by
  induction pre generalizing cat m with
  | nil => simp [extractLoop, h]
  | cons n pre ih =>
    simp only [List.cons_append]
    exact extractLoop_tail_congr n _ _ (fun cat' m' => ih cat' m') cat m

theorem extract_stops_at_contribute_witness :
    starts_with "Contribute to this list" "Contribute" = true ∧
    extractLoop
      ([Node.paragraph []] ++
        Node.heading 2 (Node.text "Contribute to this list" :: []) ::
          [Node.heading 4 [Node.text "Build your own ", Node.inlineCode "After"],
           Node.list [Node.listItem []]])
      none [("X", [])] =
      extractLoop
        ([Node.paragraph []] ++ [Node.heading 2 (Node.text "Contribute to this list" :: [])])
        none [("X", [])] :=
  ⟨by decide,
   extract_stops_at_contribute [Node.paragraph []]
     [Node.heading 4 [Node.text "Build your own ", Node.inlineCode "After"],
      Node.list [Node.listItem []]]
     [] "Contribute to this list" none [("X", [])] (by decide)⟩

/-- C3: a depth-4 heading reached by the traversal whose first child
is missing or is not a text node makes the whole extraction fail with
the structural parse error, whatever the current state. -/
theorem depth4_heading_without_text_fails (cs rest : List Node)
    (cat : Option String) (m : Taxonomy) (h : headIsText cs = false) :
    extractLoop (Node.heading 4 cs :: rest) cat m = Except.error Fail.parse := by
  rcases cs with _ | ⟨c, cs'⟩
  · simp [extractLoop]
  · cases c
    case text v => simp [headIsText] at h
    all_goals simp [extractLoop]

theorem depth4_heading_without_text_fails_witness :
    headIsText [Node.inlineCode "X"] = false ∧
    extractLoop [Node.heading 4 [Node.inlineCode "X"]] none [] =
      Except.error Fail.parse :=
  ⟨by decide,
   depth4_heading_without_text_fails [Node.inlineCode "X"] [] none [] (by decide)⟩

/-- C8: a depth-4 heading whose first-child text does not start with
"Build" is skipped — traversal continues on the remaining nodes with
the same current category and the very same mapping, so no key is
added. -/
theorem nonbuild_heading_ignored (t : String) (cs rest : List Node)
    (cat : Option String) (m : Taxonomy)
    (h : starts_with t "Build" = false) :
    extractLoop (Node.heading 4 (Node.text t :: cs) :: rest) cat m =
      extractLoop rest cat m := by
  simp [extractLoop, h]

theorem nonbuild_heading_ignored_witness :
    starts_with "Creating a language" "Build" = false ∧
    extractLoop
      [Node.heading 4 [Node.text "Creating a language", Node.inlineCode "Z"],
       Node.heading 2 [Node.text "Contribute"]]
      (some "X") [("X", ["e"])] =
      extractLoop [Node.heading 2 [Node.text "Contribute"]] (some "X") [("X", ["e"])] :=
  ⟨by decide,
   nonbuild_heading_ignored "Creating a language" [Node.inlineCode "Z"]
     [Node.heading 2 [Node.text "Contribute"]] (some "X") [("X", ["e"])] (by decide)⟩

/-- C4 (failing input): a depth-4 heading whose text "Build" has no
second child at all makes the code panic — `h.children[1]` indexes out
of bounds (src/main.rs line 81) — instead of failing with the
structural parse error the spec prescribes for a missing inline-code
child.  When the second child exists but is not inline code the parse
error is raised as specified. -/
theorem build_heading_missing_second_child_panics :
    extract (Node.root [Node.heading 4 [Node.text "Build"]]) =
      Except.error Fail.panic ∧
    extract (Node.root [Node.heading 4 [Node.text "Build", Node.text "x"]]) =
      Except.error Fail.parse :=
  ⟨rfl, rfl⟩

/-- C5 (failing input): a list item with no children under an active
category makes the code panic — `item.children().unwrap().first()
.unwrap()` unwraps a missing first child (src/main.rs lines 95-103) —
instead of failing with the structural parse error the spec prescribes
for a failed navigation.  When the navigation succeeds but the reached
node is not a link, the parse error is raised as specified. -/
theorem item_navigation_failure_panics :
    extract (Node.root
      [Node.heading 4 [Node.text "Build your own ", Node.inlineCode "X"],
       Node.list [Node.listItem []]]) = Except.error Fail.panic ∧
    extract (Node.root
      [Node.heading 4 [Node.text "Build your own ", Node.inlineCode "X"],
       Node.list [Node.listItem [Node.paragraph [Node.text "plain"]]]]) =
      Except.error Fail.parse :=
  ⟨rfl, rfl⟩

/-- C6 (failing input): a strong node with no children inside a
processed link makes the code panic — `&s.children[0]` indexes out of
bounds (src/main.rs line 113) — instead of failing with the structural
parse error the spec prescribes for a missing text child.  When the
first child exists but is not text, the parse error is raised as
specified. -/
theorem styled_node_missing_text_child_panics :
    extract (Node.root
      [Node.heading 4 [Node.text "Build your own ", Node.inlineCode "X"],
       Node.list [Node.listItem [Node.paragraph [Node.link [Node.strong []]]]]]) =
      Except.error Fail.panic ∧
    extract (Node.root
      [Node.heading 4 [Node.text "Build your own ", Node.inlineCode "X"],
       Node.list [Node.listItem [Node.paragraph
         [Node.link [Node.emphasis [Node.inlineCode "c"]]]]]]) =
      Except.error Fail.parse :=
  ⟨rfl, rfl⟩

/-- C7: a processed link whose children are a strong node with text
"Foo" and an emphasis node with text "bar" yields exactly the
bold-colored "Foo" fragment, the literal ": " separator, and the
italic-colored "bar" fragment; every link child that is neither strong
nor emphasis leaves the accumulated title untouched. -/
theorem link_title_strong_emphasis :
    buildTitle "" [Node.strong [Node.text "Foo"], Node.emphasis [Node.text "bar"]] =
      Except.ok "{blue}{bold}Foo{-}: {white}{italic}bar{-}" ∧
    ∀ (acc : String) (n : Node), isStyled n = false →
      styleChild acc n = Except.ok acc := by
  refine ⟨rfl, ?_⟩
  intro acc n h
  cases n
  case strong cs => simp [isStyled] at h
  case emphasis cs => simp [isStyled] at h
  all_goals rfl

theorem link_title_strong_emphasis_witness :
    isStyled (Node.text "plain words") = false ∧
    styleChild "q: " (Node.text "plain words") = Except.ok "q: " :=
  ⟨by decide, link_title_strong_emphasis.2 "q: " (Node.text "plain words") (by decide)⟩

/-- C9 (amended): for every count n ≥ 1 the selector returns an
integer in [0, n) whatever the message and the spinner-suppression
flag, and it has no error path; n = 0 is outside its precondition, but
the program does not guard against it — `main` invokes the selection
on the taxonomy's key count directly, and on an empty taxonomy it
panics instead of failing with an "empty taxonomy" error. -/
theorem roll_die_range_and_unguarded (seed n : Nat) (msg1 msg2 : String)
    (flag1 flag2 : Bool) (hn : 1 ≤ n) :
    roll_die seed n msg1 flag1 < n ∧
    roll_die seed n msg1 flag1 = roll_die seed n msg2 flag2 ∧
    pickCategory [] seed flag1 = Except.error Fail.panic :=
  ⟨Nat.mod_lt seed hn, rfl, rfl⟩

theorem roll_die_range_and_unguarded_witness :
    1 ≤ 6 ∧
    (roll_die 9 6 "Deciding a category... " false < 6 ∧
     roll_die 9 6 "Deciding a category... " false =
       roll_die 9 6 "Deciding a project..." true ∧
     pickCategory [] 9 false = Except.error Fail.panic) :=
  ⟨by decide,
   roll_die_range_and_unguarded 9 6 "Deciding a category... " "Deciding a project..."
     false true (by decide)⟩

/-- C9 (counterexample to the guard clause): a conforming document
with no "Build" heading yields an empty taxonomy, and the selection
stage of `main` then invokes `roll_die` with n = 0 and panics on
`keys().nth(..).unwrap()` — the program does not guard against
invoking the selector on an empty taxonomy. -/
theorem empty_taxonomy_not_guarded :
    extract (Node.root [contribNode]) = Except.ok [] ∧
    pickCategory [] 7 false = Except.error Fail.panic :=
  ⟨rfl, rfl⟩

/-- C10: two qualifying "Build" headings carrying the same inline-code
value make the second occurrence re-insert the category with a fresh
empty entry list, so every entry collected under the first occurrence
is discarded and only the entries following the second occurrence
survive. -/
theorem duplicate_build_heading_discards_entries (x : String) (n1 n2 : Nat)
    (hx : x ≠ "") :
    extract (Node.root
      [Node.heading 4 [Node.text "Build your own ", Node.inlineCode x],
       Node.list (List.replicate n1 goodItemNode),
       Node.heading 4 [Node.text "Build your own ", Node.inlineCode x],
       Node.list (List.replicate n2 goodItemNode)]) =
      Except.ok [(x, List.replicate n2 (itemTitle goodItemNode))] := by
  have hgood : ∀ (k : Nat), ∀ l ∈ [List.replicate k goodItemNode], ∀ i ∈ l,
      goodItem i = true := by
    intro k l hl i hi
    rw [List.mem_singleton.mp hl] at hi
    rw [List.eq_of_mem_replicate hi]
    decide
  have hb : starts_with "Build your own " "Build" = true := by decide
  have step1 : ∀ (rest : List Node) (cat : Option String) (m : Taxonomy),
      extractLoop
        (Node.heading 4 [Node.text "Build your own ", Node.inlineCode x] :: rest)
        cat m =
        extractLoop rest (some x) (mapInsert m x []) := by
    intro rest cat m
    simp [extractLoop, hb]
  have step2 : ∀ (k : Nat) (rest : List Node) (m : Taxonomy) (vs : List String),
      mapGet m x = some vs →
      extractLoop (Node.list (List.replicate k goodItemNode) :: rest) (some x) m =
        extractLoop rest (some x)
          (mapInsert m x (vs ++ List.replicate k (itemTitle goodItemNode))) := by
    intro k rest m vs hm
    have h := extractLoop_lists [List.replicate k goodItemNode] rest x m vs hx (hgood k) hm
    simpa [List.map_replicate] using h
  show extractLoop _ none [] = _
  rw [step1, step2 n1 _ _ [] (mapGet_mapInsert_self [] x []),
      step1, step2 n2 _ _ [] (mapGet_mapInsert_self _ x [])]
  rw [extractLoop]
  simp [mapInsert_mapInsert, mapInsert]

theorem duplicate_build_heading_discards_entries_witness :
    ("X" : String) ≠ "" ∧
    extract (Node.root
      [Node.heading 4 [Node.text "Build your own ", Node.inlineCode "X"],
       Node.list (List.replicate 2 goodItemNode),
       Node.heading 4 [Node.text "Build your own ", Node.inlineCode "X"],
       Node.list (List.replicate 1 goodItemNode)]) =
      Except.ok [("X", List.replicate 1 (itemTitle goodItemNode))] :=
  ⟨by decide, duplicate_build_heading_discards_entries "X" 2 1 (by decide)⟩
